import Mathlib

/-!
Verification of the Archive Ingestion & Yearly Self-Expression Analytics
pipeline (`senseofself.py`).

The Python source is shallowly embedded: file contents are `List Char`,
the external capabilities (`json.loads`, `pd.to_datetime`, the spaCy
model `nlp`) are function parameters, fallible code returns `Except`,
and `collections.Counter` is an insertion-ordered association list.
-/

namespace SenseOfSelf

/-- JSON values, as produced by the external `json.loads` capability.
Objects are insertion-ordered key/value lists; `json.loads` yields dicts
with unique keys, so lookups below take the first match. -/
inductive JVal where
  | jnull
  | jbool (b : Bool)
  | jnum (n : Int)
  | jstr (s : String)
  | jarr (elems : List JVal)
  | jobj (fields : List (String × JVal))

/-- The exceptions the embedded code can raise, plus the two error names
used by the specification's error taxonomy (`MalformedArchiveError`,
`EmptyArchiveError`).  The source defines neither spec error class and
never raises them; they are included only so claims that mention them
can be stated and compared against the errors the source does raise. -/
inductive PyError where
  | indexError
  | jsonDecodeError
  | keyError (k : String)
  | typeError
  | dateParseError
  | malformedArchiveError
  | emptyArchiveError
  deriving DecidableEq

/-- An absolute timestamp as produced by the external `pd.to_datetime`
capability; only the components the pipeline reads (calendar year and
month) are modelled. -/
structure DateTime where
  year : Int
  month : Int
  deriving DecidableEq

/-- One entry of the `tweets` list built by `load_twitter_data`
(source lines 36-40): the dict with keys `id`, `created_at`,
`full_text`. -/
structure PostRow where
  id : JVal
  created_at : JVal
  full_text : JVal

/-- One row of the returned DataFrame after
`df['created_at'] = pd.to_datetime(df['created_at'])` (line 43). -/
structure Record where
  id : JVal
  created_at : DateTime
  full_text : JVal

/-- Python's `content.split('=', 1)[1]`: everything after the first
`'='`; `IndexError` when no `'='` occurs (the split yields one part). -/
def afterFirstEq : List Char → Except PyError (List Char)
  | [] => .error .indexError
  | c :: cs => if c = '=' then .ok cs else afterFirstEq cs

/-- Python's `str.strip()`: remove leading and trailing whitespace. -/
def pyStrip (cs : List Char) : List Char :=
  ((cs.dropWhile Char.isWhitespace).reverse.dropWhile Char.isWhitespace).reverse

/-- Source lines 27-28: drop one trailing `';'` when present. -/
def stripTrailingSemicolon (cs : List Char) : List Char :=
  match cs.getLast? with
  | some c => if c = ';' then cs.dropLast else cs
  | none => cs

/-- Source lines 24-28: `json_str = content.split('=', 1)[1].strip()`,
then remove one trailing semicolon. -/
def extractJsonStr (content : List Char) : Except PyError (List Char) := do
  let afterEq ← afterFirstEq content
  return stripTrailingSemicolon (pyStrip afterEq)

/-- Python `for x in v`: arrays yield elements, dicts yield their keys,
strings yield their characters, everything else raises `TypeError`. -/
def pyIter : JVal → Except PyError (List JVal)
  | .jarr xs => .ok xs
  | .jobj kvs => .ok (kvs.map (fun kv => JVal.jstr kv.1))
  | .jstr s => .ok (s.toList.map (fun c => JVal.jstr (String.mk [c])))
  | _ => .error .typeError

/-- Python `v[k]` with a string key: dict lookup (`KeyError` when the
key is missing), `TypeError` on any non-dict value. -/
def pyGetStr (v : JVal) (k : String) : Except PyError JVal :=
  match v with
  | .jobj kvs =>
    match kvs.find? (fun kv => kv.1 == k) with
    | some kv => .ok kv.2
    | none => .error (.keyError k)
  | _ => .error (.typeError)

/-- Is `k` a prefix of `s`? -/
def isPrefixList : List Char → List Char → Bool
  | [], _ => true
  | _ :: _, [] => false
  | a :: as, b :: bs => a == b && isPrefixList as bs

/-- Does `k` occur as a contiguous substring of `s`? -/
def containsSub (s k : List Char) : Bool :=
  match s with
  | [] => k.isEmpty
  | _ :: rest => isPrefixList k s || containsSub rest k

/-- Python `k in v` for a string `k`: key membership for dicts, element
equality for lists, substring test for strings, `TypeError`
otherwise. -/
def pyContains (v : JVal) (k : String) : Except PyError Bool :=
  match v with
  | .jobj kvs => .ok (kvs.any (fun kv => kv.1 == k))
  | .jarr xs => .ok (xs.any (fun x => match x with | .jstr s => s == k | _ => false))
  | .jstr s => .ok (containsSub s.toList k.toList)
  | _ => .error .typeError

/-- A Python-style `for` loop building a list, aborting on the first
exception. -/
def mapExcept (f : α → Except PyError β) : List α → Except PyError (List β)
  | [] => .ok []
  | x :: xs => do
    let y ← f x
    let ys ← mapExcept f xs
    return y :: ys

/-- Source lines 35-40: unwrap `tweet['tweet']` and build the dict
`{'id': ..., 'created_at': ..., 'full_text': ...}`, where the
`full_text` field is used when present and `text` is the fallback. -/
def extractTweet (tweet : JVal) : Except PyError PostRow := do
  let tweet_data ← pyGetStr tweet "tweet"
  let idv ← pyGetStr tweet_data "id"
  let createdv ← pyGetStr tweet_data "created_at"
  let hasFull ← pyContains tweet_data "full_text"
  let textv ← if hasFull then pyGetStr tweet_data "full_text"
              else pyGetStr tweet_data "text"
  return PostRow.mk idv createdv textv

/-- Source lines 19-44, `load_twitter_data`, with the external
capabilities as parameters: strip the assignment prefix, decode the
remainder via `jsonLoads` (`JSONDecodeError` when it fails), extract
the per-tweet rows, then convert the `created_at` column via
`toDatetime` (`pd.to_datetime`, whose default `errors='raise'` aborts
on the first unparseable value).  An empty tweet list reproduces the
`KeyError` of indexing the `created_at` column of an empty DataFrame.
`coerceRow` is the per-row effect of line 43's
`pd.to_datetime(df['created_at'])`: on an unparseable value the
conversion raises (no record is dropped). -/
def coerceRow (toDatetime : JVal → Option DateTime) (row : PostRow) :
    Except PyError Record :=
  match toDatetime row.created_at with
  | some d => Except.ok (Record.mk row.id d row.full_text)
  | none => Except.error PyError.dateParseError

def load_twitter_data (jsonLoads : List Char → Option JVal)
    (toDatetime : JVal → Option DateTime) (content : List Char) :
    Except PyError (List Record) := do
  let json_str ← extractJsonStr content
  let data ← match jsonLoads json_str with
    | some v => Except.ok v
    | none => Except.error PyError.jsonDecodeError
  let elems ← pyIter data
  let tweets ← mapExcept extractTweet elems
  if tweets.isEmpty then
    Except.error (PyError.keyError "created_at")
  else
    mapExcept (coerceRow toDatetime) tweets

/-- A recognized named-entity span, as exposed by the external
linguistic capability (only the `label_` attribute is read). -/
structure Ent where
  label_ : String

/-- A token, as exposed by the external linguistic capability (only the
attributes the source reads). -/
structure Token where
  lemma_ : String
  is_stop : Bool
  is_punct : Bool
  is_alpha : Bool

/-- The annotated document an `nlp` call returns. -/
structure Doc where
  ents : List Ent
  tokens : List Token

/-- One `Counter` update: bump the count of `k` in place when the key
is present, otherwise append `(k, 1)` (Python dicts are
insertion-ordered, so keys stay in first-seen order). -/
def counterAdd (acc : List (String × Nat)) (k : String) : List (String × Nat) :=
  if acc.any (fun p => p.1 == k) then
    acc.map (fun p => if p.1 == k then (p.1, p.2 + 1) else p)
  else
    acc ++ [(k, 1)]

/-- `collections.Counter(ks)`: an insertion-ordered key/count list. -/
def counterOf (ks : List String) : List (String × Nat) :=
  ks.foldl counterAdd []

/-- `Counter.most_common(n)`: the `n` largest counts, in descending
order, ties resolved by insertion order (Python's `heapq.nlargest` is
stable in this sense); modelled as a stable descending merge sort
followed by `take n`. -/
def most_common (tbl : List (String × Nat)) (n : Nat) : List (String × Nat) :=
  (tbl.mergeSort (fun a b => decide (b.2 ≤ a.2))).take n

/-- Source lines 47-54, `analyze_self_expression`, with the spaCy
pipeline `nlp` as a parameter (`nlp.pipe` maps it over the batch; the
`batch_size` argument does not affect the result).  Entities keep every
mention; lemmas keep only tokens that are not stop-words, not
punctuation, and alphabetic. -/
def analyze_self_expression {α : Type} (nlp : α → Doc) (tweets : List α ) :
    List (String × Nat) × List (String × Nat) :=
  let docs := tweets.map nlp
  let entities := (docs.map (fun doc => doc.ents.map (fun e => e.label_))).flatten
  let lemmas := (docs.map (fun doc =>
      (doc.tokens.filter (fun t => !t.is_stop && !t.is_punct && t.is_alpha)).map
        (fun t => t.lemma_))).flatten
  (counterOf entities, counterOf lemmas)

/-- The calendar month of a timestamp as an absolute month number, the
key of a `resample('M')` bin. -/
def monthIndex (d : DateTime) : Int := d.year * 12 + (d.month - 1)

/-- Source line 66: `df_year.resample('M', on='created_at').size()`.
Pandas bins the rows into calendar months from the month of the
earliest timestamp to the month of the latest one, one contiguous bin
per month, counting zero for empty bins; months outside that span do
not appear.  An empty frame yields an empty series. -/
def resampleMonthlySize (records : List Record) : List (Int × Nat) :=
  match records.map (fun r => monthIndex r.created_at) with
  | [] => []
  | m :: ms =>
    let lo := ms.foldl min m
    let hi := ms.foldl max m
    (List.range ((hi - lo).toNat + 1)).map (fun i : Nat =>
      (lo + (i : Int),
       (records.filter (fun r => monthIndex r.created_at == lo + (i : Int))).length))

/-- Source lines 65-71, `analyze_year`: the monthly count series, the
`most_common(10)` entity table (the DataFrame columns are
presentation), and the lemma table that line 69 hands to the external
word-cloud renderer (the rendered figure itself is presentation and
carries exactly this table). -/
def analyze_year (nlp : JVal → Doc) (df_year : List Record) :
    List (Int × Nat) × List (String × Nat) × List (String × Nat) :=
  let tweet_counts := resampleMonthlySize df_year
  let tables := analyze_self_expression nlp (df_year.map (fun r => r.full_text))
  let top_entities := most_common tables.1 10
  (tweet_counts, top_entities, tables.2)

/-- Source lines 78-91, the data part of `main`: load the archive, list
the distinct years in ascending order, and run `analyze_year` on each
year's rows. -/
def run_pipeline (jsonLoads : List Char → Option JVal)
    (toDatetime : JVal → Option DateTime) (nlp : JVal → Doc)
    (content : List Char) :
    Except PyError
      (List (Int × (List (Int × Nat) × List (String × Nat) × List (String × Nat)))) := do
  let df ← load_twitter_data jsonLoads toDatetime content
  let years := ((df.map (fun r => r.created_at.year)).dedup).mergeSort
      (fun a b => decide (a ≤ b))
  return years.map (fun y =>
    (y, analyze_year nlp (df.filter (fun r => r.created_at.year == y))))

/-! ### Helper lemmas about the parsing path -/

@[simp] theorem error_bind {α β : Type} (e : PyError) (f : α → Except PyError β) :
    (Except.error e : Except PyError α) >>= f = .error e := rfl

@[simp] theorem ok_bind {α β : Type} (a : α) (f : α → Except PyError β) :
    (Except.ok a : Except PyError α) >>= f = f a := rfl

@[simp] theorem map_ok {α β : Type} (f : α → β) (a : α) :
    f <$> (Except.ok a : Except PyError α) = .ok (f a) := rfl

@[simp] theorem map_error {α β : Type} (f : α → β) (e : PyError) :
    f <$> (Except.error e : Except PyError α) = .error e := rfl

theorem afterFirstEq_of_not_mem {cs : List Char} (h : '=' ∉ cs) :
    afterFirstEq cs = .error .indexError := by
  induction cs with
  | nil => rfl
  | cons c cs ih =>
    have hc : ¬(c = '=') := by
      intro e
      exact h (by simp [e])
    have hm : '=' ∉ cs := fun m => h (List.mem_cons_of_mem _ m)
    simp [afterFirstEq, hc, ih hm]

/-- A capability instance for an external JSON decoder that rejects its
input. -/
def jlNone : List Char → Option JVal := fun _ => none

/-- A capability instance for a timestamp parser that rejects its
input. -/
def tdNone : JVal → Option DateTime := fun _ => none

/-- C2 (amended): a payload without the assignment operator makes
`load_twitter_data` fail with `IndexError` (from `split('=', 1)[1]`),
and a payload whose remainder the JSON decoder rejects makes it fail
with `JSONDecodeError`; the source defines no `MalformedArchiveError`. -/
theorem c2_malformed_payload_raises (jsonLoads : List Char → Option JVal)
    (toDatetime : JVal → Option DateTime) (content : List Char) :
    (('=' ∉ content) →
      load_twitter_data jsonLoads toDatetime content = .error .indexError) ∧
    (∀ s, extractJsonStr content = .ok s → jsonLoads s = none →
      load_twitter_data jsonLoads toDatetime content = .error .jsonDecodeError) := by
  constructor
  · intro h
    simp [load_twitter_data, extractJsonStr, afterFirstEq_of_not_mem h]
  · intro s hs hj
    simp [load_twitter_data, hs, hj]

/-- C2 witness: the amended theorem applied to two concrete payloads,
one with no `'='` and one whose remainder the decoder rejects. -/
theorem c2_malformed_payload_raises_witness :
    load_twitter_data jlNone tdNone "no assignment operator".toList
        = .error .indexError ∧
    load_twitter_data jlNone tdNone "window.YTD = oops".toList
        = .error .jsonDecodeError := by
  constructor
  · exact (c2_malformed_payload_raises jlNone tdNone _).1 (by decide)
  · exact (c2_malformed_payload_raises jlNone tdNone _).2 "oops".toList rfl rfl

/-- C2 counterexample: on both failing payload shapes the error the
code raises is not the spec's `MalformedArchiveError` (no such class
exists in the source; the actual exceptions are `IndexError` and
`json.JSONDecodeError`). -/
theorem c2_counterexample :
    load_twitter_data jlNone tdNone "no assignment operator".toList
        = .error .indexError ∧
    load_twitter_data jlNone tdNone "window.YTD = oops".toList
        = .error .jsonDecodeError ∧
    PyError.indexError ≠ PyError.malformedArchiveError ∧
    PyError.jsonDecodeError ≠ PyError.malformedArchiveError :=
  ⟨rfl, rfl, by decide, by decide⟩

/-! ### The timestamp-coercion step -/

theorem mapExcept_coerce_error (toDatetime : JVal → Option DateTime)
    {rows : List PostRow} (hbad : ∃ row ∈ rows, toDatetime row.created_at = none) :
    mapExcept (coerceRow toDatetime) rows = .error .dateParseError := by
  induction rows with
  | nil => simp at hbad
  | cons r rs ih =>
    obtain ⟨row, hrow, hnone⟩ := hbad
    rcases List.mem_cons.mp hrow with h | h
    · subst h
      simp [mapExcept, coerceRow, hnone]
    · cases hr : toDatetime r.created_at with
      | none => simp [mapExcept, coerceRow, hr]
      | some d => simp [mapExcept, coerceRow, hr, ih ⟨row, h, hnone⟩]

theorem mapExcept_ok_length {α β : Type} {f : α → Except PyError β} :
    ∀ {l : List α} {l' : List β}, mapExcept f l = .ok l' → l'.length = l.length := by
  intro l
  induction l with
  | nil =>
    intro l' h
    simp [mapExcept] at h
    simp [h]
  | cons x xs ih =>
    intro l' h
    cases hx : f x with
    | error e => rw [mapExcept, hx] at h; simp at h
    | ok y =>
      rw [mapExcept, hx] at h
      cases hxs : mapExcept f xs with
      | error e => rw [hxs] at h; simp at h
      | ok ys =>
        rw [hxs] at h
        simp at h
        subst h
        simp [ih hxs]

theorem mapExcept_coerce_ids (toDatetime : JVal → Option DateTime) :
    ∀ {rows : List PostRow} {recs : List Record},
    mapExcept (coerceRow toDatetime) rows = .ok recs →
    recs.map (fun r => r.id) = rows.map (fun r => r.id) := by
  intro rows
  induction rows with
  | nil =>
    intro recs h
    simp [mapExcept] at h
    simp [h]
  | cons r rs ih =>
    intro recs h
    cases hr : toDatetime r.created_at with
    | none => rw [mapExcept, coerceRow, hr] at h; simp at h
    | some d =>
      rw [mapExcept, coerceRow, hr] at h
      cases hrs : mapExcept (coerceRow toDatetime) rs with
      | error e => rw [hrs] at h; simp at h
      | ok ys =>
        rw [hrs] at h
        simp at h
        subst h
        simp [ih hrs]

/-- A `tweet` array element with the given id and timestamp strings. -/
def mkTweet (i ts : String) : JVal :=
  .jobj [("tweet", .jobj [("id", .jstr i), ("created_at", .jstr ts),
                          ("full_text", .jstr "hello world")])]

/-- A concrete timestamp-parsing capability instance that accepts three
fixed date strings and rejects everything else. -/
def tdSample : JVal → Option DateTime := fun v =>
  match v with
  | .jstr "2020-03-05" => some ⟨2020, 3⟩
  | .jstr "2020-06-10" => some ⟨2020, 6⟩
  | .jstr "2021-01-02" => some ⟨2021, 1⟩
  | _ => none

/-- A decoder instance returning a three-tweet archive whose second
tweet has an unparseable timestamp. -/
def jl3 : List Char → Option JVal := fun _ =>
  some (.jarr [mkTweet "1" "2020-03-05", mkTweet "2" "not_a_date",
               mkTweet "3" "2020-06-10"])

/-- Shared helper: once the archive has parsed into rows, a single row
whose timestamp the capability cannot parse aborts the whole load with
the parse error. -/
theorem load_aborts_of_unparseable
    (jsonLoads : List Char → Option JVal) (toDatetime : JVal → Option DateTime)
    (content s : List Char) (data : JVal) (elems : List JVal)
    (rows : List PostRow)
    (hs : extractJsonStr content = .ok s) (hj : jsonLoads s = some data)
    (hi : pyIter data = .ok elems) (he : mapExcept extractTweet elems = .ok rows)
    (hbad : ∃ row ∈ rows, toDatetime row.created_at = none) :
    load_twitter_data jsonLoads toDatetime content = .error .dateParseError := by
  have hne : rows.isEmpty = false := by
    obtain ⟨row, hrow, -⟩ := hbad
    cases rows with
    | nil => cases hrow
    | cons => rfl
  simp [load_twitter_data, hs, hj, hi, he, hne,
        mapExcept_coerce_error toDatetime hbad]

/-- C3 (amended): a record whose `created_at` the timestamp capability
cannot parse makes the whole run abort with the parse error —
`pd.to_datetime`'s default `errors='raise'` — instead of the record
being dropped. -/
theorem c3_unparseable_timestamp_aborts
    (jsonLoads : List Char → Option JVal) (toDatetime : JVal → Option DateTime)
    (content s : List Char) (data : JVal) (elems : List JVal)
    (rows : List PostRow)
    (hs : extractJsonStr content = .ok s) (hj : jsonLoads s = some data)
    (hi : pyIter data = .ok elems) (he : mapExcept extractTweet elems = .ok rows)
    (hbad : ∃ row ∈ rows, toDatetime row.created_at = none) :
    load_twitter_data jsonLoads toDatetime content = .error .dateParseError :=
  load_aborts_of_unparseable jsonLoads toDatetime content s data elems rows
    hs hj hi he hbad

/-- The intermediate rows of the three-tweet archive of `jl3`. -/
def rows3 : List PostRow :=
  [⟨.jstr "1", .jstr "2020-03-05", .jstr "hello world"⟩,
   ⟨.jstr "2", .jstr "not_a_date", .jstr "hello world"⟩,
   ⟨.jstr "3", .jstr "2020-06-10", .jstr "hello world"⟩]

/-- C3 witness: the amended theorem applied to the concrete three-tweet
archive whose middle record has an unparseable timestamp. -/
theorem c3_unparseable_timestamp_aborts_witness :
    load_twitter_data jl3 tdSample "window.YTD.tweets.part0 = []".toList
      = .error .dateParseError :=
  c3_unparseable_timestamp_aborts jl3 tdSample _ "[]".toList
    (.jarr [mkTweet "1" "2020-03-05", mkTweet "2" "not_a_date",
            mkTweet "3" "2020-06-10"])
    [mkTweet "1" "2020-03-05", mkTweet "2" "not_a_date", mkTweet "3" "2020-06-10"]
    rows3 rfl rfl rfl rfl
    ⟨⟨.jstr "2", .jstr "not_a_date", .jstr "hello world"⟩,
     List.mem_cons_of_mem _ (List.mem_cons_self _ _), rfl⟩

/-- C3 counterexample: on the three-record archive with one unparseable
timestamp the claim promises a two-record collection and no error, but
the code returns the timestamp parse error (nothing is dropped). -/
theorem c3_counterexample :
    load_twitter_data jl3 tdSample "window.YTD.tweets.part0 = []".toList
      = .error .dateParseError ∧
    (load_twitter_data jl3 tdSample
        "window.YTD.tweets.part0 = []".toList).isOk = false :=
  ⟨rfl, rfl⟩

/-- A decoder instance returning a two-tweet archive in which every
timestamp is unparseable. -/
def jl4 : List Char → Option JVal := fun _ =>
  some (.jarr [mkTweet "1" "nope", mkTweet "2" "also_bad"])

/-- C4 (amended): an archive whose records all have unparseable
timestamps makes the run fail with the timestamp parse error raised by
the conversion of the `created_at` column; the source defines no
`EmptyArchiveError` and has no empty-after-coercion check. -/
theorem c4_all_unparseable_raises
    (jsonLoads : List Char → Option JVal) (toDatetime : JVal → Option DateTime)
    (content s : List Char) (data : JVal) (elems : List JVal)
    (rows : List PostRow)
    (hs : extractJsonStr content = .ok s) (hj : jsonLoads s = some data)
    (hi : pyIter data = .ok elems) (he : mapExcept extractTweet elems = .ok rows)
    (hne : rows ≠ [])
    (hall : ∀ row ∈ rows, toDatetime row.created_at = none) :
    load_twitter_data jsonLoads toDatetime content = .error .dateParseError := by
  obtain ⟨r, rs, rfl⟩ := List.exists_cons_of_ne_nil hne
  exact load_aborts_of_unparseable jsonLoads toDatetime content s data elems
    _ hs hj hi he ⟨r, List.mem_cons_self r rs, hall r (List.mem_cons_self r rs)⟩

/-- The intermediate rows of the all-unparseable archive of `jl4`. -/
def rows4 : List PostRow :=
  [⟨.jstr "1", .jstr "nope", .jstr "hello world"⟩,
   ⟨.jstr "2", .jstr "also_bad", .jstr "hello world"⟩]

/-- C4 witness: the amended theorem applied to the concrete archive
whose two records both have unparseable timestamps. -/
theorem c4_all_unparseable_raises_witness :
    load_twitter_data jl4 tdSample "window.YTD.tweets.part0 = []".toList
      = .error .dateParseError :=
  c4_all_unparseable_raises jl4 tdSample _ "[]".toList
    (.jarr [mkTweet "1" "nope", mkTweet "2" "also_bad"])
    [mkTweet "1" "nope", mkTweet "2" "also_bad"] rows4 rfl rfl rfl rfl
    (by simp [rows4])
    (by intro row hrow
        rcases List.mem_cons.mp hrow with h | h
        · subst h; rfl
        · rcases List.mem_cons.mp h with h2 | h2
          · subst h2; rfl
          · cases h2)

/-- C4 counterexample: on an archive where every timestamp is
unparseable the error the code raises is the timestamp parse error, not
the spec's `EmptyArchiveError` (no such class exists in the source). -/
theorem c4_counterexample :
    load_twitter_data jl4 tdSample "window.YTD.tweets.part0 = []".toList
      = .error .dateParseError ∧
    PyError.dateParseError ≠ PyError.emptyArchiveError :=
  ⟨rfl, by decide⟩

/-! ### No deduplication by id (C8) -/

/-- A decoder instance returning an archive with two tweets sharing the
id `"1"`. -/
def jl8 : List Char → Option JVal := fun _ =>
  some (.jarr [mkTweet "1" "2020-03-05", mkTweet "1" "2020-06-10"])

/-- C8 (amended): `load_twitter_data` performs no deduplication —
every successfully parsed record is retained, in order, so the result
has exactly one record per array element and the id column of the
output equals the id column of the parsed rows, duplicates included. -/
theorem c8_no_dedup
    (jsonLoads : List Char → Option JVal) (toDatetime : JVal → Option DateTime)
    (content s : List Char) (data : JVal) (elems : List JVal)
    (rows : List PostRow) (recs : List Record)
    (hs : extractJsonStr content = .ok s) (hj : jsonLoads s = some data)
    (hi : pyIter data = .ok elems) (he : mapExcept extractTweet elems = .ok rows)
    (hok : load_twitter_data jsonLoads toDatetime content = .ok recs) :
    recs.length = elems.length ∧
    recs.map (fun r => r.id) = rows.map (fun r => r.id) := by
  have hstep : (if rows.isEmpty then
        (Except.error (PyError.keyError "created_at") : Except PyError (List Record))
      else mapExcept (coerceRow toDatetime) rows) = .ok recs := by
    simpa [load_twitter_data, hs, hj, hi, he] using hok
  by_cases hre : rows.isEmpty
  · rw [if_pos hre] at hstep
    simp at hstep
  · rw [if_neg hre] at hstep
    have hlen := mapExcept_ok_length hstep
    have hlen2 := mapExcept_ok_length he
    exact ⟨hlen.trans hlen2, mapExcept_coerce_ids toDatetime hstep⟩

/-- The first record the duplicate-id archive produces. -/
def recA8 : Record := ⟨.jstr "1", ⟨2020, 3⟩, .jstr "hello world"⟩

/-- The second record the duplicate-id archive produces; same id as
`recA8`, different timestamp. -/
def recB8 : Record := ⟨.jstr "1", ⟨2020, 6⟩, .jstr "hello world"⟩

/-- C8 witness: the amended theorem applied to the concrete
duplicate-id archive: both records survive. -/
theorem c8_no_dedup_witness :
    ([recA8, recB8] : List Record).length =
      ([mkTweet "1" "2020-03-05", mkTweet "1" "2020-06-10"] : List JVal).length ∧
    ([recA8, recB8] : List Record).map (fun r => r.id) =
      ([(⟨.jstr "1", .jstr "2020-03-05", .jstr "hello world"⟩ : PostRow),
        ⟨.jstr "1", .jstr "2020-06-10", .jstr "hello world"⟩]).map (fun r => r.id) :=
  c8_no_dedup jl8 tdSample "window.YTD.tweets.part0 = []".toList "[]".toList
    (.jarr [mkTweet "1" "2020-03-05", mkTweet "1" "2020-06-10"])
    [mkTweet "1" "2020-03-05", mkTweet "1" "2020-06-10"]
    [⟨.jstr "1", .jstr "2020-03-05", .jstr "hello world"⟩,
     ⟨.jstr "1", .jstr "2020-06-10", .jstr "hello world"⟩]
    [recA8, recB8] rfl rfl rfl rfl rfl

/-- C8 counterexample: the duplicate-id archive yields two distinct
records with the same id, so the result does not contain each id at
most once. -/
theorem c8_counterexample :
    load_twitter_data jl8 tdSample "window.YTD.tweets.part0 = []".toList
      = .ok [recA8, recB8] ∧
    recA8.id = recB8.id ∧ recA8.created_at ≠ recB8.created_at :=
  ⟨rfl, rfl, by decide⟩

/-! ### Field extraction (C7) -/

/-- C7: from each array element's nested post object the parser
extracts exactly `id`, `created_at` and a text field, taking
`full_text` whenever that key is present and `text` only as the
fallback when it is absent. -/
theorem c7_field_extraction (fields : List (String × JVal)) (vid vc : JVal)
    (hid : pyGetStr (.jobj fields) "id" = .ok vid)
    (hca : pyGetStr (.jobj fields) "created_at" = .ok vc) :
    (∀ vf, pyContains (.jobj fields) "full_text" = .ok true →
        pyGetStr (.jobj fields) "full_text" = .ok vf →
        extractTweet (.jobj [("tweet", .jobj fields)]) = .ok ⟨vid, vc, vf⟩) ∧
    (∀ vt, pyContains (.jobj fields) "full_text" = .ok false →
        pyGetStr (.jobj fields) "text" = .ok vt →
        extractTweet (.jobj [("tweet", .jobj fields)]) = .ok ⟨vid, vc, vt⟩) := by
  have houter : pyGetStr (.jobj [("tweet", .jobj fields)]) "tweet"
      = .ok (.jobj fields) := rfl
  constructor
  · intro vf hcf hvf
    simp [extractTweet, houter, hid, hca, hcf, hvf]
  · intro vt hcf hvt
    simp [extractTweet, houter, hid, hca, hcf, hvt]

/-- A post object carrying both a `full_text` and a `text` field. -/
def fieldsBoth : List (String × JVal) :=
  [("id", .jstr "7"), ("created_at", .jstr "2020-03-05"),
   ("full_text", .jstr "the full version"), ("text", .jstr "the short version")]

/-- A post object carrying only a `text` field. -/
def fieldsTextOnly : List (String × JVal) :=
  [("id", .jstr "7"), ("created_at", .jstr "2020-03-05"),
   ("text", .jstr "the short version")]

/-- C7 witness: with both fields present `full_text` wins; without it
the `text` field is used. -/
theorem c7_field_extraction_witness :
    extractTweet (.jobj [("tweet", .jobj fieldsBoth)]) =
      .ok ⟨.jstr "7", .jstr "2020-03-05", .jstr "the full version"⟩ ∧
    extractTweet (.jobj [("tweet", .jobj fieldsTextOnly)]) =
      .ok ⟨.jstr "7", .jstr "2020-03-05", .jstr "the short version"⟩ :=
  ⟨(c7_field_extraction fieldsBoth _ _ rfl rfl).1 _ rfl rfl,
   (c7_field_extraction fieldsTextOnly _ _ rfl rfl).2 _ rfl rfl⟩

/-! ### Determinism (C9) and the empty batch (C10) -/

/-- A linguistic capability instance that annotates nothing. -/
def nlp0 : JVal → Doc := fun _ => ⟨[], []⟩

/-- C9: the pipeline is a pure function of the archive content and the
three external capabilities, so two runs on the same input produce
identical per-year reports — the same monthly counts, the same
`top_entities` in the same order, and the same lemma table. -/
theorem c9_pipeline_deterministic (jsonLoads : List Char → Option JVal)
    (toDatetime : JVal → Option DateTime) (nlp : JVal → Doc)
    (content : List Char)
    (r1 r2 : Except PyError
      (List (Int × (List (Int × Nat) × List (String × Nat) × List (String × Nat)))))
    (h1 : r1 = run_pipeline jsonLoads toDatetime nlp content)
    (h2 : r2 = run_pipeline jsonLoads toDatetime nlp content) :
    r1 = r2 :=
  h1.trans h2.symm

/-- C9 witness: two runs on a concrete archive coincide. -/
theorem c9_pipeline_deterministic_witness :
    run_pipeline jl3 tdSample nlp0 "window.YTD.tweets.part0 = []".toList =
      run_pipeline jl3 tdSample nlp0 "window.YTD.tweets.part0 = []".toList :=
  c9_pipeline_deterministic jl3 tdSample nlp0 _ _ _ rfl rfl

/-- C10: the Linguistic Extractor applied to an empty batch returns two
empty frequency tables. -/
theorem c10_empty_batch (nlp : String → Doc) :
    analyze_self_expression nlp ([] : List String) = ([], []) := rfl

/-! ### Counter lemmas -/

/-- The spec's "first-seen order during counting": the distinct labels
of a stream, each at its first occurrence.  Stated from the spec's
words, to be compared with the key order `counterOf` produces. -/
def specFirstSeenOrder (ks : List String) : List String :=
  ks.foldl (fun seen k => if k ∈ seen then seen else seen ++ [k]) []

theorem counterAdd_map_fst (acc : List (String × Nat)) (k : String) :
    (counterAdd acc k).map Prod.fst =
      if k ∈ acc.map Prod.fst then acc.map Prod.fst
      else acc.map Prod.fst ++ [k] := by
  unfold counterAdd
  by_cases h : acc.any (fun p => p.1 == k)
  · rw [if_pos h, if_pos]
    · have hfun : (Prod.fst ∘ fun p : String × Nat =>
          if p.1 == k then (p.1, p.2 + 1) else p) = Prod.fst := by
        funext p
        simp only [Function.comp_apply]
        split <;> rfl
      rw [List.map_map, hfun]
    · rcases List.any_eq_true.mp h with ⟨p, hp, hpk⟩
      exact List.mem_map.mpr ⟨p, hp, by simpa using hpk⟩
  · rw [if_neg h, if_neg]
    · simp
    · intro hk
      apply h
      rcases List.mem_map.mp hk with ⟨p, hp, hpk⟩
      exact List.any_eq_true.mpr ⟨p, hp, by simp [hpk]⟩

theorem foldl_counterAdd_map_fst (ks : List String) :
    ∀ acc : List (String × Nat),
    (ks.foldl counterAdd acc).map Prod.fst =
      ks.foldl (fun seen k => if k ∈ seen then seen else seen ++ [k])
        (acc.map Prod.fst) := by
  induction ks with
  | nil => intro acc; rfl
  | cons k ks ih =>
    intro acc
    simp only [List.foldl_cons]
    rw [ih, counterAdd_map_fst]

/-- The keys of a Counter are the labels in first-seen order. -/
theorem counterOf_map_fst (ks : List String) :
    (counterOf ks).map Prod.fst = specFirstSeenOrder ks :=
  foldl_counterAdd_map_fst ks []

theorem firstSeen_foldl_invariant (ks : List String) :
    ∀ seen : List String, seen.Nodup →
    (ks.foldl (fun seen k => if k ∈ seen then seen else seen ++ [k]) seen).Nodup ∧
    ∀ x, x ∈ ks.foldl (fun seen k => if k ∈ seen then seen else seen ++ [k]) seen ↔
      x ∈ seen ∨ x ∈ ks := by
  induction ks with
  | nil => simp
  | cons k ks ih =>
    intro seen hnd
    simp only [List.foldl_cons]
    by_cases hk : k ∈ seen
    · obtain ⟨h1, h2⟩ := ih seen hnd
      rw [if_pos hk]
      refine ⟨h1, fun x => ?_⟩
      rw [h2 x]
      simp only [List.mem_cons]
      constructor
      · rintro (hx | hx)
        · exact Or.inl hx
        · exact Or.inr (Or.inr hx)
      · rintro (hx | rfl | hx)
        · exact Or.inl hx
        · exact Or.inl hk
        · exact Or.inr hx
    · have hnd2 : (seen ++ [k]).Nodup := by
        simp [List.nodup_append, hnd, hk]
      obtain ⟨h1, h2⟩ := ih (seen ++ [k]) hnd2
      rw [if_neg hk]
      refine ⟨h1, fun x => ?_⟩
      rw [h2 x]
      simp only [List.mem_append, List.mem_cons, List.mem_singleton]
      tauto

theorem specFirstSeenOrder_nodup (ks : List String) :
    (specFirstSeenOrder ks).Nodup :=
  (firstSeen_foldl_invariant ks [] (by simp)).1

theorem mem_specFirstSeenOrder {ks : List String} {x : String} :
    x ∈ specFirstSeenOrder ks ↔ x ∈ ks := by
  have h := (firstSeen_foldl_invariant ks [] (by simp)).2 x
  simpa [specFirstSeenOrder] using h

theorem specFirstSeenOrder_length (ks : List String) :
    (specFirstSeenOrder ks).length = ks.toFinset.card := by
  rw [← List.toFinset_card_of_nodup (specFirstSeenOrder_nodup ks)]
  congr 1
  ext x
  simp [mem_specFirstSeenOrder]

theorem counterOf_nodup (ks : List String) : (counterOf ks).Nodup :=
  List.Nodup.of_map Prod.fst
    (by rw [counterOf_map_fst]; exact specFirstSeenOrder_nodup ks)

theorem counterOf_length (ks : List String) :
    (counterOf ks).length = ks.toFinset.card := by
  have h := congrArg List.length (counterOf_map_fst ks)
  simpa [specFirstSeenOrder_length] using h

theorem mem_keys_counterOf {ks : List String} {p : String × Nat}
    (hp : p ∈ counterOf ks) : p.1 ∈ ks := by
  have h : p.1 ∈ (counterOf ks).map Prod.fst := List.mem_map_of_mem _ hp
  rw [counterOf_map_fst] at h
  exact mem_specFirstSeenOrder.mp h

/-! ### The lemma filter (C5) -/

/-- C5: every entry of the lemma table comes from a token that is not a
stop-word, not punctuation, and alphabetic; and a batch whose tokens
are all stop-words, punctuation or non-alphabetic yields an empty lemma
table. -/
theorem c5_lemma_filter (nlp : String → Doc) (texts : List String) :
    (∀ p ∈ (analyze_self_expression nlp texts).2, ∃ s ∈ texts,
        ∃ t ∈ (nlp s).tokens, t.lemma_ = p.1 ∧
          t.is_stop = false ∧ t.is_punct = false ∧ t.is_alpha = true) ∧
    ((∀ s ∈ texts, ∀ t ∈ (nlp s).tokens,
        t.is_stop = true ∨ t.is_punct = true ∨ t.is_alpha = false) →
      (analyze_self_expression nlp texts).2 = []) := by
  constructor
  · intro p hp
    simp only [analyze_self_expression] at hp
    have hk := mem_keys_counterOf hp
    simp only [List.mem_flatten, List.mem_map, List.map_map] at hk
    obtain ⟨inner, ⟨s, hs, rfl⟩, hkin⟩ := hk
    simp only [Function.comp_apply, List.mem_map, List.mem_filter] at hkin
    obtain ⟨t, ⟨ht, hcond⟩, hteq⟩ := hkin
    simp only [Bool.and_eq_true, Bool.not_eq_true'] at hcond
    exact ⟨s, hs, t, ht, hteq, hcond.1.1, hcond.1.2, hcond.2⟩
  · intro hall
    simp only [analyze_self_expression]
    have hnil : ((texts.map nlp).map (fun doc =>
        (doc.tokens.filter (fun t => !t.is_stop && !t.is_punct && t.is_alpha)).map
          (fun t => t.lemma_))).flatten = ([] : List String) := by
      rw [List.flatten_eq_nil_iff]
      intro l hl
      simp only [List.map_map, List.mem_map, Function.comp_apply] at hl
      obtain ⟨s, hs, rfl⟩ := hl
      rw [List.map_eq_nil_iff, List.filter_eq_nil_iff]
      intro t ht
      rcases hall s hs t ht with h | h | h <;> simp [h]
    rw [hnil]
    rfl

/-- A linguistic capability instance producing only stop-word and
punctuation tokens. -/
def nlpStop : String → Doc := fun _ =>
  ⟨[], [⟨"the", true, false, true⟩, ⟨".", false, true, false⟩]⟩

/-- C5 witness: on a text annotated only with a stop-word and a
punctuation token the lemma table is empty. -/
theorem c5_lemma_filter_witness :
    (analyze_self_expression nlpStop ["the ."]).2 = [] :=
  (c5_lemma_filter nlpStop ["the ."]).2 (by decide)

/-! ### Top-entities ranking (C6) -/

theorem descBy_trans (a b c : String × Nat) :
    decide (b.2 ≤ a.2) → decide (c.2 ≤ b.2) → decide (c.2 ≤ a.2) = true := by
  simp only [decide_eq_true_eq]
  omega

theorem descBy_total (a b : String × Nat) :
    (decide (b.2 ≤ a.2) || decide (a.2 ≤ b.2)) = true := by
  simp only [Bool.or_eq_true, decide_eq_true_eq]
  exact Nat.le_total b.2 a.2

/-- In a duplicate-free list, a pair that occurs in order still occurs
in order in any prefix that contains the second component. -/
theorem pair_sublist_take {α : Type} {l : List α} :
    ∀ {n : Nat} {a b : α}, List.Sublist [a, b] l → l.Nodup → b ∈ l.take n →
      List.Sublist [a, b] (l.take n) := by
  induction l with
  | nil =>
    intro n a b h _ _
    simp at h
  | cons x rest ih =>
    intro n a b hab hnd hbmem
    cases n with
    | zero => simp at hbmem
    | succ n =>
      simp only [List.take_succ_cons] at hbmem ⊢
      have hndr : rest.Nodup := (List.nodup_cons.mp hnd).2
      have hxnotin : x ∉ rest := (List.nodup_cons.mp hnd).1
      cases hab with
      | cons _ h =>
        have hbrest : b ∈ rest := h.subset (by simp)
        have hb2 : b ∈ rest.take n := by
          rcases List.mem_cons.mp hbmem with rfl | hb
          · exact absurd hbrest hxnotin
          · exact hb
        exact (ih h hndr hb2).cons x
      | cons₂ _ h =>
        have hbrest : b ∈ rest := List.singleton_sublist.mp h
        have hb2 : b ∈ rest.take n := by
          rcases List.mem_cons.mp hbmem with rfl | hb
          · exact absurd hbrest hxnotin
          · exact hb
        exact (List.singleton_sublist.mpr hb2).cons₂ x

/-- C6: `top_entities` has length `min 10 (distinct labels seen)`, is
sorted descending by count, the counting table lists labels in
first-seen order, and a tie between two labels is always resolved in
favour of the one first seen earlier (stability of `most_common`). -/
theorem c6_top_entities (nlp : JVal → Doc) (df_year : List Record)
    (labels : List String)
    (hlabels : labels = (((df_year.map fun r => r.full_text).map nlp).map
        (fun doc => doc.ents.map (fun e => e.label_))).flatten) :
    (analyze_year nlp df_year).2.1.length = min 10 labels.toFinset.card ∧
    (analyze_year nlp df_year).2.1.Pairwise (fun a b => b.2 ≤ a.2) ∧
    (counterOf labels).map Prod.fst = specFirstSeenOrder labels ∧
    (∀ a b : String × Nat, List.Sublist [a, b] (counterOf labels) → a.2 = b.2 →
      b ∈ (analyze_year nlp df_year).2.1 →
      List.Sublist [a, b] ((analyze_year nlp df_year).2.1)) := by
  have hout : (analyze_year nlp df_year).2.1 = most_common (counterOf labels) 10 := by
    subst hlabels
    rfl
  have hsorted : ((counterOf labels).mergeSort
      (fun a b => decide (b.2 ≤ a.2))).Pairwise (fun a b => b.2 ≤ a.2) := by
    have h := List.sorted_mergeSort descBy_trans descBy_total (counterOf labels)
    exact h.imp (fun hab => of_decide_eq_true hab)
  refine ⟨?_, ?_, counterOf_map_fst labels, ?_⟩
  · rw [hout]
    simp [most_common, counterOf_length]
  · rw [hout]
    exact hsorted.sublist (List.take_sublist _ _)
  · intro a b hab heq hbmem
    rw [hout] at hbmem ⊢
    simp only [most_common] at hbmem ⊢
    have hle : decide (b.2 ≤ a.2) = true := by
      rw [heq]
      simp
    have h1 : List.Sublist [a, b]
        ((counterOf labels).mergeSort (fun a b => decide (b.2 ≤ a.2))) :=
      List.pair_sublist_mergeSort descBy_trans descBy_total hle hab
    have hnod : ((counterOf labels).mergeSort
        (fun a b => decide (b.2 ≤ a.2))).Nodup :=
      ((List.mergeSort_perm (counterOf labels) _).nodup_iff).mpr (counterOf_nodup labels)
    exact pair_sublist_take h1 hnod hbmem

/-- A linguistic capability instance yielding two PERSON and two ORG
mentions for any input, PERSON seen first. -/
def nlpEnts : JVal → Doc := fun _ =>
  ⟨[⟨"PERSON"⟩, ⟨"ORG"⟩, ⟨"ORG"⟩, ⟨"PERSON"⟩], []⟩

/-- The record the C6 witness archive contains. -/
def recE : Record := ⟨.jstr "1", ⟨2020, 3⟩, .jstr "x"⟩

/-- C6 witness: the theorem applied to a concrete one-record year whose
entity stream is PERSON, ORG, ORG, PERSON — a tie that stability must
resolve in favour of PERSON. -/
theorem c6_top_entities_witness :
    (analyze_year nlpEnts [recE]).2.1.length =
      min 10 (["PERSON", "ORG", "ORG", "PERSON"] : List String).toFinset.card ∧
    (analyze_year nlpEnts [recE]).2.1.Pairwise (fun a b => b.2 ≤ a.2) ∧
    (counterOf ["PERSON", "ORG", "ORG", "PERSON"]).map Prod.fst =
      specFirstSeenOrder ["PERSON", "ORG", "ORG", "PERSON"] ∧
    (∀ a b : String × Nat,
      List.Sublist [a, b] (counterOf ["PERSON", "ORG", "ORG", "PERSON"]) → a.2 = b.2 →
      b ∈ (analyze_year nlpEnts [recE]).2.1 →
      List.Sublist [a, b] ((analyze_year nlpEnts [recE]).2.1)) :=
  c6_top_entities nlpEnts [recE] ["PERSON", "ORG", "ORG", "PERSON"] rfl

/-! ### Monthly resampling (C1) -/

theorem foldl_min_le_start : ∀ (xs : List Int) (a : Int), xs.foldl min a ≤ a := by
  intro xs
  induction xs with
  | nil => intro a; simp
  | cons x xs ih =>
    intro a
    simp only [List.foldl_cons]
    exact le_trans (ih (min a x)) (min_le_left a x)

theorem foldl_min_le_mem : ∀ (xs : List Int) (a x : Int), x ∈ xs → xs.foldl min a ≤ x := by
  intro xs
  induction xs with
  | nil => intro a x hx; cases hx
  | cons y ys ih =>
    intro a x hx
    rcases List.mem_cons.mp hx with rfl | hx
    · exact le_trans (foldl_min_le_start ys (min a x)) (min_le_right a x)
    · exact ih (min a y) x hx

theorem foldl_min_eq_or_mem :
    ∀ (xs : List Int) (a : Int), xs.foldl min a = a ∨ xs.foldl min a ∈ xs := by
  intro xs
  induction xs with
  | nil => intro a; left; rfl
  | cons x xs ih =>
    intro a
    rcases ih (min a x) with h | h
    · rcases le_total a x with hax | hxa
      · left
        rw [List.foldl_cons, h, min_eq_left hax]
      · right
        rw [List.foldl_cons, h, min_eq_right hxa]
        exact List.mem_cons_self x xs
    · right
      rw [List.foldl_cons]
      exact List.mem_cons_of_mem _ h

theorem foldl_max_ge_start : ∀ (xs : List Int) (a : Int), a ≤ xs.foldl max a := by
  intro xs
  induction xs with
  | nil => intro a; simp
  | cons x xs ih =>
    intro a
    simp only [List.foldl_cons]
    exact le_trans (le_max_left a x) (ih (max a x))

theorem foldl_max_ge_mem : ∀ (xs : List Int) (a x : Int), x ∈ xs → x ≤ xs.foldl max a := by
  intro xs
  induction xs with
  | nil => intro a x hx; cases hx
  | cons y ys ih =>
    intro a x hx
    rcases List.mem_cons.mp hx with rfl | hx
    · exact le_trans (le_max_right a x) (foldl_max_ge_start ys (max a x))
    · exact ih (max a y) x hx

theorem foldl_max_eq_or_mem :
    ∀ (xs : List Int) (a : Int), xs.foldl max a = a ∨ xs.foldl max a ∈ xs := by
  intro xs
  induction xs with
  | nil => intro a; left; rfl
  | cons x xs ih =>
    intro a
    rcases ih (max a x) with h | h
    · rcases le_total x a with hax | hxa
      · left
        rw [List.foldl_cons, h, max_eq_left hax]
      · right
        rw [List.foldl_cons, h, max_eq_right hxa]
        exact List.mem_cons_self x xs
    · right
      rw [List.foldl_cons]
      exact List.mem_cons_of_mem _ h

/-- Each record falls into exactly one of the `n` contiguous month
bins, so the bin sizes sum to the number of records. -/
theorem sum_filter_bins (f : Record → Int) (lo : Int) (n : Nat) :
    ∀ l : List Record, (∀ r ∈ l, ∃ j : Nat, j < n ∧ f r = lo + j) →
    ∑ i in Finset.range n, (l.filter (fun r => f r == lo + i)).length = l.length := by
  intro l
  induction l with
  | nil => intro _; simp
  | cons r rs ih =>
    intro h
    obtain ⟨j, hj, hfr⟩ := h r (List.mem_cons_self r rs)
    have htail := ih (fun x hx => h x (List.mem_cons_of_mem _ hx))
    have hiff : ∀ i : Nat, (f r = lo + i) ↔ (i = j) := by
      intro i
      rw [hfr]
      omega
    calc ∑ i in Finset.range n, ((r :: rs).filter (fun x => f x == lo + i)).length
        = ∑ i in Finset.range n, ((if i = j then 1 else 0) +
            (rs.filter (fun x => f x == lo + i)).length) := by
          refine Finset.sum_congr rfl (fun i _ => ?_)
          by_cases hc : f r = lo + i
          · simp [List.filter_cons, hc, (hiff i).mp hc, Nat.add_comm]
          · have hij : ¬i = j := fun he => hc ((hiff i).mpr he)
            simp [List.filter_cons, hc, hij]
      _ = (∑ i in Finset.range n, if i = j then 1 else 0) +
            ∑ i in Finset.range n, (rs.filter (fun x => f x == lo + i)).length :=
          Finset.sum_add_distrib
      _ = 1 + rs.length := by
          rw [htail, Finset.sum_ite_eq' (Finset.range n) j (fun _ => 1),
              if_pos (Finset.mem_range.mpr hj)]
      _ = (r :: rs).length := by simp [Nat.add_comm]

/-- C1 (amended): given that `lo` and `hi` are the attained least and
greatest month numbers of the year's records, `monthly_counts` has one
entry per calendar month from `lo` to `hi` — not always 12 — each entry
carrying the count of records in that month (0 for record-free months
inside the span), and the counts sum to the number of records. -/
theorem c1_monthly_counts_span (nlp : JVal → Doc) (df_year : List Record)
    (lo hi : Int)
    (hbound : ∀ r ∈ df_year,
      lo ≤ monthIndex r.created_at ∧ monthIndex r.created_at ≤ hi)
    (hlo : ∃ r ∈ df_year, monthIndex r.created_at = lo)
    (hhi : ∃ r ∈ df_year, monthIndex r.created_at = hi) :
    (analyze_year nlp df_year).1.length = (hi - lo).toNat + 1 ∧
    (∀ p ∈ (analyze_year nlp df_year).1, lo ≤ p.1 ∧ p.1 ≤ hi ∧
      p.2 = (df_year.filter (fun r => monthIndex r.created_at == p.1)).length) ∧
    (∀ b : Int, lo ≤ b → b ≤ hi →
      (b, (df_year.filter (fun r => monthIndex r.created_at == b)).length)
        ∈ (analyze_year nlp df_year).1) ∧
    ((analyze_year nlp df_year).1.map Prod.snd).sum = df_year.length := by
  cases df_year with
  | nil =>
    obtain ⟨r, hr, -⟩ := hlo
    cases hr
  | cons r rest =>
    have hlohi : lo ≤ hi := by
      obtain ⟨r1, hr1, he1⟩ := hlo
      have := (hbound r1 hr1).2
      omega
    have hlo2 : (rest.map fun x => monthIndex x.created_at).foldl min
        (monthIndex r.created_at) = lo := by
      apply le_antisymm
      · obtain ⟨r1, hr1, he1⟩ := hlo
        rcases List.mem_cons.mp hr1 with rfl | hmem
        · exact he1 ▸ foldl_min_le_start _ _
        · exact he1 ▸ foldl_min_le_mem _ _ _
            (List.mem_map.mpr ⟨r1, hmem, rfl⟩)
      · rcases foldl_min_eq_or_mem (rest.map fun x => monthIndex x.created_at)
            (monthIndex r.created_at) with h | h
        · rw [h]
          exact (hbound r (List.mem_cons_self r rest)).1
        · obtain ⟨r1, hmem, he1⟩ := List.mem_map.mp h
          rw [← he1]
          exact (hbound r1 (List.mem_cons_of_mem _ hmem)).1
    have hhi2 : (rest.map fun x => monthIndex x.created_at).foldl max
        (monthIndex r.created_at) = hi := by
      apply le_antisymm
      · rcases foldl_max_eq_or_mem (rest.map fun x => monthIndex x.created_at)
            (monthIndex r.created_at) with h | h
        · rw [h]
          exact (hbound r (List.mem_cons_self r rest)).2
        · obtain ⟨r1, hmem, he1⟩ := List.mem_map.mp h
          rw [← he1]
          exact (hbound r1 (List.mem_cons_of_mem _ hmem)).2
      · obtain ⟨r1, hr1, he1⟩ := hhi
        rcases List.mem_cons.mp hr1 with rfl | hmem
        · exact he1 ▸ foldl_max_ge_start _ _
        · exact he1 ▸ foldl_max_ge_mem _ _ _
            (List.mem_map.mpr ⟨r1, hmem, rfl⟩)
    have hres : (analyze_year nlp (r :: rest)).1 =
        (List.range ((hi - lo).toNat + 1)).map (fun i : Nat =>
          (lo + (i : Int),
           ((r :: rest).filter
              (fun x => monthIndex x.created_at == lo + (i : Int))).length)) := by
      show resampleMonthlySize (r :: rest) = _
      simp only [resampleMonthlySize, List.map_cons]
      rw [hlo2, hhi2]
    refine ⟨?_, ?_, ?_, ?_⟩
    · rw [hres]
      simp
    · intro p hp
      rw [hres] at hp
      obtain ⟨i, hir, rfl⟩ := List.mem_map.mp hp
      have hile := List.mem_range.mp hir
      refine ⟨by omega, by omega, rfl⟩
    · intro b hlb hbh
      rw [hres]
      refine List.mem_map.mpr ⟨(b - lo).toNat, List.mem_range.mpr (by omega), ?_⟩
      have hb : lo + ((b - lo).toNat : Int) = b := by omega
      rw [hb]
    · rw [hres, List.map_map]
      have hmap : (Prod.snd ∘ fun i : Nat =>
          (lo + (i : Int),
           ((r :: rest).filter (fun x => monthIndex x.created_at == lo + (i : Int))).length)) =
          fun i : Nat =>
            ((r :: rest).filter (fun x => monthIndex x.created_at == lo + (i : Int))).length :=
        rfl
      rw [hmap]
      have hbridge : ((List.range ((hi - lo).toNat + 1)).map (fun i : Nat =>
          ((r :: rest).filter (fun x => monthIndex x.created_at == lo + (i : Int))).length)).sum =
          ∑ i in Finset.range ((hi - lo).toNat + 1),
            ((r :: rest).filter (fun x => monthIndex x.created_at == lo + (i : Int))).length := rfl
      rw [hbridge]
      apply sum_filter_bins
      intro x hx
      obtain ⟨hxl, hxh⟩ := hbound x hx
      exact ⟨(monthIndex x.created_at - lo).toNat, by omega, by omega⟩

/-- The single-record March 2020 year bucket. -/
def recMarch : Record := ⟨.jstr "1", ⟨2020, 3⟩, .jstr "x"⟩

/-- C1 witness: the amended theorem applied to the March-only year,
whose span is the single month 24242 (March 2020). -/
theorem c1_monthly_counts_span_witness :
    (analyze_year nlp0 [recMarch]).1.length = ((24242 : Int) - 24242).toNat + 1 ∧
    (∀ p ∈ (analyze_year nlp0 [recMarch]).1, (24242 : Int) ≤ p.1 ∧ p.1 ≤ 24242 ∧
      p.2 = ([recMarch].filter (fun r => monthIndex r.created_at == p.1)).length) ∧
    (∀ b : Int, (24242 : Int) ≤ b → b ≤ 24242 →
      (b, ([recMarch].filter (fun r => monthIndex r.created_at == b)).length)
        ∈ (analyze_year nlp0 [recMarch]).1) ∧
    ((analyze_year nlp0 [recMarch]).1.map Prod.snd).sum =
      ([recMarch] : List Record).length :=
  c1_monthly_counts_span nlp0 [recMarch] 24242 24242
    (by intro r hr
        rcases List.mem_cons.mp hr with rfl | h
        · exact ⟨by decide, by decide⟩
        · cases h)
    ⟨recMarch, List.mem_cons_self _ _, by decide⟩
    ⟨recMarch, List.mem_cons_self _ _, by decide⟩

/-- C1 counterexample: a year containing one record (in March) has a
`monthly_counts` series with a single entry, not 12 zero-filled
entries for January through December. -/
theorem c1_counterexample :
    ([recMarch] : List Record).length = 1 ∧
    (analyze_year nlp0 [recMarch]).1.length = 1 ∧ (1 : Nat) ≠ 12 :=
  ⟨rfl, rfl, by decide⟩

end SenseOfSelf
